import Mathlib

/-!
Verification of the pi-timelaps control daemons.

This file gives a shallow embedding, in Lean 4, of the parts of the
repository that the specification's claims are about:

* `lux_exposured.py` — the exposure controller daemon (astro-mode hysteresis
  state machine, log-log exposure-table interpolation, EMA smoothing,
  per-tick step limiter, locked config writes);
* `awb_adjuster.py` — the white-balance gain controller
  (`compute_target_gain`, locked config writes);
* `lux_controller.py` — the preset switcher (`apply_preset_to_config`,
  `tl_restart`, its `load_json`);
* `tlctl.py` — the process supervisor contract, as seen by the switcher.

Python floats are modelled as `ℚ` where the code is pure arithmetic and as
`ℝ` where it uses `math.log` / `math.exp`; Python `int()` truncation is
`pyInt`; fallible readers return `Except`; JSON records are a structure of
optional fields; the shape of each writer's critical section (lock
acquisition, fresh re-read, atomic replace) and of the restart procedure is
modelled as an explicit event trace, hand-translated from the source.
-/

set_option maxHeartbeats 1000000

/-! ## Definitions -/

/-- Translation of `clamp(x, lo, hi)` from `lux_exposured.py` /
`awb_adjuster.py`: `lo if x < lo else hi if x > hi else x`. -/
def clamp (x lo hi : ℚ) : ℚ :=
  if x < lo then lo else if x > hi then hi else x

/-- Python `int()` applied to a float: truncation toward zero. -/
def pyInt (q : ℚ) : ℤ :=
  if 0 ≤ q then ⌊q⌋ else ⌈q⌉

/-- The shared JSON config record, restricted to the fields the claims are
about.  A field is `none` when the key is absent from the JSON object. -/
structure ConfigRecord where
  shutter : Option ℤ := none
  gain : Option ℚ := none
  awb_gain_r : Option ℚ := none
  awb_gain_b : Option ℚ := none
  camera_id : Option String := none
deriving DecidableEq

/-- The empty record `{}` that tolerant readers fall back to. -/
def emptyRecord : ConfigRecord := {}

/-- Observable state of a JSON file on disk, as a reader can encounter it:
missing, present but unreadable (I/O / permission error on open or read),
readable but not valid JSON, or valid with parsed content `r`. -/
inductive FileState where
  | missing
  | unreadable
  | malformed
  | valid (r : ConfigRecord)
deriving DecidableEq

/-- Python exceptions distinguished by the three `load_json` variants. -/
inductive PyError where
  | fileNotFound
  | jsonDecode
  | osError
deriving DecidableEq

namespace LuxExposured

/-- Translation of `lux_exposured.load_json` (lines 37–41): catches every
exception (`except Exception: return {}`), so every failure state yields the
empty record. -/
def load_json : FileState → ConfigRecord
  | .valid r => r
  | _ => emptyRecord

end LuxExposured

namespace LuxController

/-- Translation of `lux_controller.load_json` (lines 61–69): returns `None`
on `FileNotFoundError` and on `json.JSONDecodeError`; any other exception
(for example `PermissionError` while opening an unreadable file) propagates
to the caller. -/
def load_json : FileState → Except PyError (Option ConfigRecord)
  | .missing => .ok none
  | .malformed => .ok none
  | .unreadable => .error .osError
  | .valid r => .ok (some r)

/-- Translation of `lux_controller.apply_preset_to_config` (lines 189–202),
as a function from the preset file's state and the live record to the new
on-disk record: if the preset file is missing (`not ppath.exists()`) or its
JSON is invalid (`pdata is None`) nothing is written (`.ok none`); reading
an unreadable preset file propagates the exception out of `load_json`;
otherwise the code runs `save_json(config_path, pdata)`, so the new on-disk
record is exactly the preset data — the current live record is never
consulted. -/
def apply_preset_to_config (presetFile : FileState) (_live : ConfigRecord) :
    Except PyError (Option ConfigRecord) :=
  match presetFile with
  | .missing => .ok none
  | .malformed => .ok none
  | .unreadable => .error .osError
  | .valid pdata => .ok (some pdata)

end LuxController

namespace AwbAdjuster

/-- Translation of `awb_adjuster.load_json` (lines 75–77): opens and parses
with no exception handler at all, so every failure state raises to the
caller (`FileNotFoundError`, `json.JSONDecodeError`, or the underlying I/O
error). -/
def load_json : FileState → Except PyError ConfigRecord
  | .missing => .error .fileNotFound
  | .malformed => .error .jsonDecode
  | .unreadable => .error .osError
  | .valid r => .ok r

end AwbAdjuster

/-- Events a config-record writer can perform on the shared store:
acquiring / releasing the `fcntl` exclusive lock on `/tmp/tlcfg.lock`,
re-reading the on-disk record, and atomically replacing the file
(temp-write then rename). -/
inductive CfgEvent where
  | acquireLock
  | readConfig
  | writeConfigAtomic
  | releaseLock
deriving DecidableEq

/-- Event trace of the exposure daemon's normal-mode write
(`lux_exposured.main`, the `with cfg_lock(): new_cfg = load_json(cfg_path);
…; save_json_atomic(cfg_path, new_cfg)` block). -/
def luxExposuredWriteEvents : List CfgEvent :=
  [.acquireLock, .readConfig, .writeConfigAtomic, .releaseLock]

/-- Event trace of the exposure daemon's one-shot astro-mode write
(`with cfg_lock(): new_cfg = load_json(cfg_path)  # frisch laden! …`). -/
def luxExposuredAstroWriteEvents : List CfgEvent :=
  [.acquireLock, .readConfig, .writeConfigAtomic, .releaseLock]

/-- Event trace of the AWB adjuster's write (`awb_adjuster.adjust_once`,
the `with cfg_lock(): latest = load_json(…); …; save_json_atomic(…)`
block). -/
def awbAdjusterWriteEvents : List CfgEvent :=
  [.acquireLock, .readConfig, .writeConfigAtomic, .releaseLock]

/-- Event trace of the preset switcher's config write
(`apply_preset_to_config`, lines 189–202): it calls `save_json(config_path,
pdata)` directly — no lock is acquired and the on-disk record is not
re-read before the replacement. -/
def presetSwitcherWriteEvents : List CfgEvent :=
  [.writeConfigAtomic]

/-- The write protocol the spec demands of every writer: acquire the
exclusive lock, re-read the on-disk record fresh inside the lock, atomically
replace the file, then release the lock. -/
def lockedFreshRMW (t : List CfgEvent) : Prop :=
  t = [.acquireLock, .readConfig, .writeConfigAtomic, .releaseLock]

instance (t : List CfgEvent) : Decidable (lockedFreshRMW t) := by
  unfold lockedFreshRMW; infer_instance

/-- Commands and delays the preset switcher can direct at the process
supervisor (`tlctl.py`): the `stop` / `start` / `status` verbs, the
supervisor's own `restart` verb, and a fixed in-process sleep of `n`
milliseconds. -/
inductive SupAction where
  | stopCmd
  | startCmd
  | statusCmd
  | restartCmd
  | sleepMs (n : ℕ)
deriving DecidableEq

/-- Translation of `lux_controller.tl_restart` (lines 146–151) at its
default `sleep_s = 0.4`: issue `stop`, sleep a fixed 400 ms, issue
`start`. -/
def tlRestartActions : List SupAction :=
  [.stopCmd, .sleepMs 400, .startCmd]

/-- The restart discipline claim C3 describes: a stop command, at least one
status poll before the start, a start command, and never the supervisor's
single `restart` verb. -/
def stopPollThenStart (t : List SupAction) : Prop :=
  .stopCmd ∈ t ∧ .statusCmd ∈ t ∧ .startCmd ∈ t ∧ .restartCmd ∉ t

instance (t : List SupAction) : Decidable (stopPollThenStart t) := by
  unfold stopPollThenStart; infer_instance

/-- Concrete preset bundle used to exhibit a preset switch that overwrites
the runtime-tunable fields. -/
def presetNight : ConfigRecord :=
  { shutter := some 100, gain := some 1, awb_gain_r := some 2,
    awb_gain_b := some 2, camera_id := some "imx708" }

/-- Concrete live record immediately before the switch, with manually tuned
exposure and white balance differing from `presetNight`. -/
def liveBefore : ConfigRecord :=
  { shutter := some 4000, gain := some 2, awb_gain_r := some 3,
    awb_gain_b := some 4, camera_id := some "imx708" }

/-- Thresholds and hold durations of the astro-mode hysteresis
(`astro_enter_lux`, `astro_exit_lux`, `astro_enter_hold_s`,
`astro_exit_hold_s`). -/
structure AstroParams where
  enterLux : ℚ
  exitLux : ℚ
  holdOn : ℚ
  holdOff : ℚ

/-- Per-tick astro-mode state of the exposure daemon: the `astro_active`
flag and the `below_threshold_since` / `above_threshold_since` timers. -/
structure AstroState where
  active : Bool
  belowSince : Option ℚ
  aboveSince : Option ℚ
deriving DecidableEq

/-- Translation of one tick of the astro-mode logic in
`lux_exposured.main` (lines 186–202): update the two since-timers from the
current lux reading, then enter astro mode if lux has stayed at or below
`enterLux` for at least `holdOn`, then leave it if lux has stayed at or
above `exitLux` for at least `holdOff`. -/
def astroStep (p : AstroParams) (s : AstroState) (lux now : ℚ) : AstroState :=
  let below := if lux ≤ p.enterLux then some (s.belowSince.getD now) else none
  let above := if p.exitLux ≤ lux then some (s.aboveSince.getD now) else none
  let act1 : Bool :=
    match s.active, below with
    | false, some t => decide (p.holdOn ≤ now - t)
    | a, _ => a
  let act2 : Bool :=
    match act1, above with
    | true, some t => !decide (p.holdOff ≤ now - t)
    | a, _ => a
  ⟨act2, below, above⟩

/-- Run of the astro-mode state machine over a tick sequence; each tick is
a pair `(lux, now)` of the averaged lux reading and the monotonic clock. -/
def astroRun (p : AstroParams) (s : AstroState) (ticks : List (ℚ × ℚ)) :
    AstroState :=
  ticks.foldl (fun st t => astroStep p st t.1 t.2) s

/-- Translation of the shutter step limiter (`lux_exposured.main`, lines
234–239): `max_up_s = shutter * (1.0 + pct)`, `max_dn_s = shutter * (1.0 -
pct)`, `prop_s = int(clamp(tgt_s, max_dn_s, max_up_s))`.  `shutter` is the
live value (a Python int), `tgt` the integer target from
`compute_targets`. -/
def stepLimitShutter (shutter : ℤ) (pct : ℚ) (tgt : ℤ) : ℤ :=
  pyInt (clamp (tgt : ℚ) ((shutter : ℚ) * (1 - pct)) ((shutter : ℚ) * (1 + pct)))

/-- Translation of the gain step limiter: `prop_g = float(clamp(tgt_g,
gain * (1.0 - pct), gain * (1.0 + pct)))` — no integer truncation. -/
def stepLimitGain (gain pct tgt : ℚ) : ℚ :=
  clamp tgt (gain * (1 - pct)) (gain * (1 + pct))

/-- Translation of `awb_adjuster.compute_target_gain` (lines 141–152):
deadband check on the error `1 - ratio`, proportional term clamped to
`±step_max`, EMA blend of current and proposed gain, final clamp to
`[gmin, gmax]`. -/
def compute_target_gain (current_gain ratio deadband k_p step_max alpha gmin gmax : ℚ) : ℚ :=
  let err := 1 - ratio
  if |err| ≤ deadband then current_gain
  else
    let rel := clamp (k_p * err) (-step_max) step_max
    let proposed := current_gain * (1 + rel)
    let target := (1 - alpha) * current_gain + alpha * proposed
    clamp target gmin gmax

/-- One `{lux, et_us}` anchor of an exposure table.  The interpolation uses
`math.log` and `math.exp`, so this part of the embedding lives in `ℝ`. -/
structure Anchor where
  lux : ℝ
  et_us : ℝ

/-- Stable insertion of an anchor into a lux-descending list; auxiliary to
`sortDescLux`. -/
noncomputable def insertDesc (a : Anchor) : List Anchor → List Anchor
  | [] => [a]
  | b :: l => if b.lux ≤ a.lux then a :: b :: l else b :: insertDesc a l

/-- Translation of `sorted(table, key=lambda e: e["lux"], reverse=True)`:
stable descending insertion sort by the lux key. -/
noncomputable def sortDescLux (l : List Anchor) : List Anchor :=
  l.foldr insertDesc []

/-- Translation of the interpolation formula for one table segment from
`loglog_interp_exposure`: with `u = (lx - llo) / (lhi - llo)`, the value
`exp(tlo + u * (thi - tlo))` where `llo`, `lhi`, `tlo`, `thi` are the logs
of the segment endpoints' lux and et_us. -/
noncomputable def segInterp (hi lo : Anchor) (lx : ℝ) : ℝ :=
  Real.exp (Real.log lo.et_us +
    (lx - Real.log lo.lux) / (Real.log hi.lux - Real.log lo.lux) *
      (Real.log hi.et_us - Real.log lo.et_us))

/-- Translation of the segment-search loop of `loglog_interp_exposure`:
`for i in range(len(t) - 1): hi, lo = t[i], t[i+1]; if lo["lux"] <= lux <=
hi["lux"]: return exp(...)`; `none` when the loop falls through. -/
noncomputable def interpLoop (lux lx : ℝ) : List Anchor → Option ℝ
  | hi :: lo :: rest =>
      if lo.lux ≤ lux ∧ lux ≤ hi.lux then some (segInterp hi lo lx)
      else interpLoop lux lx (lo :: rest)
  | _ => none

/-- Body of `loglog_interp_exposure` after the sort: clamp to the first
anchor's et above the table, to the last anchor's et below it, else search
the segments; the loop's fall-through `return float(t[-1]["et_us"])` is the
`none` arm.  An empty table (`t[0]` raising `IndexError`) is `none`. -/
noncomputable def loglogCore (lux : ℝ) : List Anchor → Option ℝ
  | [] => none
  | a :: rest =>
      if a.lux ≤ lux then some a.et_us
      else if lux ≤ ((a :: rest).getLast (List.cons_ne_nil a rest)).lux then
        some (((a :: rest).getLast (List.cons_ne_nil a rest)).et_us)
      else
        match interpLoop lux (Real.log lux) (a :: rest) with
        | some r => some r
        | none => some (((a :: rest).getLast (List.cons_ne_nil a rest)).et_us)

/-- Translation of `lux_exposured.loglog_interp_exposure` (lines 87–100):
substitute `1e-6` for a non-positive lux, sort the table descending by lux,
then clamp or interpolate log-log. -/
noncomputable def loglog_interp_exposure (lux0 : ℝ) (table : List Anchor) :
    Option ℝ :=
  loglogCore (if lux0 ≤ 0 then 1e-6 else lux0) (sortDescLux table)

/-- Well-formedness of a sorted exposure table, as claim C7 assumes it:
anchors strictly descending in lux, all lux values strictly positive, all
exposure times strictly positive, and exposure time non-decreasing as lux
decreases. -/
def SortedTable (l : List Anchor) : Prop :=
  List.Pairwise (fun a b => b.lux < a.lux) l ∧ (∀ a ∈ l, 0 < a.lux) ∧
    (∀ a ∈ l, 0 < a.et_us) ∧ List.Pairwise (fun a b => a.et_us ≤ b.et_us) l

/-- An exposure table satisfying claim C7's hypotheses: nonempty and
well-formed. -/
def GoodTable (t : List Anchor) : Prop :=
  t ≠ [] ∧ SortedTable t

/-- Translation of the EMA seed in `lux_exposured.main` (line 159):
`ema_et = max(1.0, shutter * max(gain, 1.0))`, computed from the live
record once at startup. -/
noncomputable def initEmaEt (shutter gain : ℝ) : ℝ :=
  max 1 (shutter * max gain 1)

/-- Translation of the EMA update in `compute_targets` (lines 113–114):
`ema_et = alpha * ema_et_prev + (1.0 - alpha) * et if ema_et_prev > 0 else
et`. -/
noncomputable def emaUpdate (alpha prev et : ℝ) : ℝ :=
  if 0 < prev then alpha * prev + (1 - alpha) * et else et

/-! ## Helper lemmas -/

theorem astroStep_active_of_between (p : AstroParams) (s : AstroState)
    (lux now : ℚ) (h1 : p.enterLux < lux) (h2 : lux < p.exitLux) :
    (astroStep p s lux now).active = s.active := by
  unfold astroStep
  rw [if_neg (not_le.mpr h1), if_neg (not_le.mpr h2)]
  cases s.active <;> rfl

theorem clamp_mem (x lo hi : ℚ) (h : lo ≤ hi) :
    lo ≤ clamp x lo hi ∧ clamp x lo hi ≤ hi := by
  unfold clamp
  split
  · exact ⟨le_refl _, h⟩
  · split
    · exact ⟨h, le_refl _⟩
    · next h1 h2 => exact ⟨not_lt.mp h1, not_lt.mp h2⟩

theorem clamp_dist (x c p : ℚ) (hc : 0 < c) (hp : 0 ≤ p) :
    |clamp x (c * (1 - p)) (c * (1 + p)) - c| ≤ c * p := by
  have hlohi : c * (1 - p) ≤ c * (1 + p) := by nlinarith
  obtain ⟨h1, h2⟩ := clamp_mem x (c * (1 - p)) (c * (1 + p)) hlohi
  rw [abs_le]
  constructor <;> nlinarith

theorem pyInt_dist (q : ℚ) : |(pyInt q : ℚ) - q| < 1 := by
  unfold pyInt
  split
  · rw [abs_lt]
    constructor
    · have := Int.lt_floor_add_one q
      linarith
    · have := Int.floor_le q
      linarith
  · rw [abs_lt]
    constructor
    · have := Int.le_ceil q
      linarith
    · have := Int.ceil_lt_add_one q
      linarith

/-- A list whose lux keys are already strictly descending is left unchanged
by the sort. -/
theorem sortDescLux_eq_self (l : List Anchor)
    (h : List.Pairwise (fun a b => b.lux < a.lux) l) : sortDescLux l = l := by
  induction l with
  | nil => rfl
  | cons a tl ih =>
      have htl := (List.pairwise_cons.mp h).2
      have hhd := (List.pairwise_cons.mp h).1
      show insertDesc a (sortDescLux tl) = a :: tl
      rw [ih htl]
      cases tl with
      | nil => rfl
      | cons b tl' =>
          show insertDesc a (b :: tl') = a :: b :: tl'
          unfold insertDesc
          rw [if_pos (le_of_lt (hhd b (List.mem_cons_self b tl')))]

theorem segInterp_bounds (hi lo : Anchor) (hlo : 0 < lo.lux)
    (hll : lo.lux < hi.lux) (hetlo : 0 < lo.et_us) (hethi : 0 < hi.et_us)
    (hee : hi.et_us ≤ lo.et_us) (x : ℝ) (hx1 : lo.lux ≤ x) (hx2 : x ≤ hi.lux) :
    hi.et_us ≤ segInterp hi lo (Real.log x) ∧
      segInterp hi lo (Real.log x) ≤ lo.et_us := by
  have hD : 0 < Real.log hi.lux - Real.log lo.lux :=
    sub_pos.mpr (Real.log_lt_log hlo hll)
  have hxlo : Real.log lo.lux ≤ Real.log x := Real.log_le_log hlo hx1
  have hxhi : Real.log x ≤ Real.log hi.lux :=
    Real.log_le_log (lt_of_lt_of_le hlo hx1) hx2
  have hu0 : 0 ≤ (Real.log x - Real.log lo.lux) /
      (Real.log hi.lux - Real.log lo.lux) := div_nonneg (by linarith) hD.le
  have hu1 : (Real.log x - Real.log lo.lux) /
      (Real.log hi.lux - Real.log lo.lux) ≤ 1 :=
    (div_le_one hD).mpr (by linarith)
  have het : Real.log hi.et_us ≤ Real.log lo.et_us := Real.log_le_log hethi hee
  have hmul1 := mul_nonneg (by linarith : (0:ℝ) ≤ 1 -
      (Real.log x - Real.log lo.lux) / (Real.log hi.lux - Real.log lo.lux))
    (by linarith : (0:ℝ) ≤ Real.log lo.et_us - Real.log hi.et_us)
  have hmul2 := mul_nonneg hu0
    (by linarith : (0:ℝ) ≤ Real.log lo.et_us - Real.log hi.et_us)
  constructor
  · calc hi.et_us = Real.exp (Real.log hi.et_us) := (Real.exp_log hethi).symm
      _ ≤ segInterp hi lo (Real.log x) := by
          unfold segInterp
          exact Real.exp_le_exp.mpr (by nlinarith)
  · calc segInterp hi lo (Real.log x)
        ≤ Real.exp (Real.log lo.et_us) := by
          unfold segInterp
          exact Real.exp_le_exp.mpr (by nlinarith)
      _ = lo.et_us := Real.exp_log hetlo

theorem segInterp_antitone (hi lo : Anchor) (hlo : 0 < lo.lux)
    (hll : lo.lux < hi.lux) (hethi : 0 < hi.et_us) (hee : hi.et_us ≤ lo.et_us)
    (x y : ℝ) (hx1 : lo.lux ≤ x) (hxy : x ≤ y) (_hy2 : y ≤ hi.lux) :
    segInterp hi lo (Real.log y) ≤ segInterp hi lo (Real.log x) := by
  have hD : 0 < Real.log hi.lux - Real.log lo.lux :=
    sub_pos.mpr (Real.log_lt_log hlo hll)
  have hxy' : Real.log x ≤ Real.log y :=
    Real.log_le_log (lt_of_lt_of_le hlo hx1) hxy
  have hu : (Real.log x - Real.log lo.lux) / (Real.log hi.lux - Real.log lo.lux)
      ≤ (Real.log y - Real.log lo.lux) / (Real.log hi.lux - Real.log lo.lux) :=
    (div_le_div_iff_of_pos_right hD).mpr (by linarith)
  have het : Real.log hi.et_us ≤ Real.log lo.et_us :=
    Real.log_le_log hethi hee
  have hmul := mul_nonneg (by linarith : (0:ℝ) ≤
      (Real.log y - Real.log lo.lux) / (Real.log hi.lux - Real.log lo.lux) -
      (Real.log x - Real.log lo.lux) / (Real.log hi.lux - Real.log lo.lux))
    (by linarith : (0:ℝ) ≤ Real.log lo.et_us - Real.log hi.et_us)
  unfold segInterp
  exact Real.exp_le_exp.mpr (by nlinarith)

theorem segInterp_at_lo (hi lo : Anchor) (hetlo : 0 < lo.et_us) :
    segInterp hi lo (Real.log lo.lux) = lo.et_us := by
  unfold segInterp
  rw [sub_self, zero_div, zero_mul, add_zero, Real.exp_log hetlo]

theorem segInterp_at_hi (hi lo : Anchor) (hlo : 0 < lo.lux)
    (hll : lo.lux < hi.lux) (hethi : 0 < hi.et_us) :
    segInterp hi lo (Real.log hi.lux) = hi.et_us := by
  have hD : Real.log hi.lux - Real.log lo.lux ≠ 0 :=
    (sub_pos.mpr (Real.log_lt_log hlo hll)).ne'
  unfold segInterp
  rw [div_self hD, one_mul]
  rw [show Real.log lo.et_us + (Real.log hi.et_us - Real.log lo.et_us)
      = Real.log hi.et_us by ring]
  exact Real.exp_log hethi

theorem SortedTable.tail {a : Anchor} {l : List Anchor}
    (h : SortedTable (a :: l)) : SortedTable l :=
  ⟨(List.pairwise_cons.mp h.1).2,
   fun b hb => h.2.1 b (List.mem_cons_of_mem a hb),
   fun b hb => h.2.2.1 b (List.mem_cons_of_mem a hb),
   (List.pairwise_cons.mp h.2.2.2).2⟩

/-- In a strictly lux-descending list, every member either is the last
element or has strictly larger lux than it. -/
theorem sorted_getLast_cases (l : List Anchor) (h : l ≠ [])
    (hp : List.Pairwise (fun a b => b.lux < a.lux) l) :
    ∀ a ∈ l, a = l.getLast h ∨ (l.getLast h).lux < a.lux := by
  induction l with
  | nil => exact absurd rfl h
  | cons b tl ih =>
      intro a ha
      cases tl with
      | nil =>
          left
          rcases List.mem_cons.mp ha with rfl | ha'
          · rfl
          · cases ha'
      | cons c tl' =>
          have hgl : (b :: c :: tl').getLast h
              = (c :: tl').getLast (List.cons_ne_nil c tl') :=
            List.getLast_cons (List.cons_ne_nil c tl')
          rcases List.mem_cons.mp ha with rfl | ha'
          · right
            rw [hgl]
            exact (List.pairwise_cons.mp hp).1 _
              (List.getLast_mem (List.cons_ne_nil c tl'))
          · rcases ih (List.cons_ne_nil c tl') (List.pairwise_cons.mp hp).2 a ha'
              with h1 | h1
            · left; rw [hgl]; exact h1
            · right; rw [hgl]; exact h1

/-- In an et-non-decreasing list the head's exposure time bounds the
last element's from below. -/
theorem sorted_head_et_le_getLast (b : Anchor) (tl : List Anchor)
    (hp : List.Pairwise (fun a c => a.et_us ≤ c.et_us) (b :: tl)) :
    b.et_us ≤ ((b :: tl).getLast (List.cons_ne_nil b tl)).et_us := by
  rcases List.mem_cons.mp (List.getLast_mem (List.cons_ne_nil b tl))
    with he | he
  · rw [he]
  · exact (List.pairwise_cons.mp hp).1 _ he

theorem interpLoop_none_of_lt (x lx : ℝ) (l : List Anchor)
    (h : ∀ a ∈ l, a.lux < x) : interpLoop x lx l = none := by
  induction l with
  | nil => rfl
  | cons hi tl ih =>
      cases tl with
      | nil => rfl
      | cons lo rest =>
          simp only [interpLoop]
          rw [if_neg (fun hc =>
            absurd hc.2 (not_le.mpr (h hi (List.mem_cons_self hi _))))]
          exact ih (fun a ha => h a (List.mem_cons_of_mem hi ha))

theorem interpLoop_bounds (x : ℝ) (tl : List Anchor) :
    ∀ (hi : Anchor), SortedTable (hi :: tl) → ∀ r,
      interpLoop x (Real.log x) (hi :: tl) = some r →
      hi.et_us ≤ r ∧ r ≤ ((hi :: tl).getLast (List.cons_ne_nil hi tl)).et_us := by
  induction tl with
  | nil => intro hi _ r hr; cases hr
  | cons lo rest ih =>
      intro hi hs r hr
      simp only [interpLoop] at hr
      have hll : lo.lux < hi.lux :=
        (List.pairwise_cons.mp hs.1).1 lo (List.mem_cons_self lo rest)
      have hee : hi.et_us ≤ lo.et_us :=
        (List.pairwise_cons.mp hs.2.2.2).1 lo (List.mem_cons_self lo rest)
      have hgl : ((hi :: lo :: rest).getLast (List.cons_ne_nil hi _))
          = ((lo :: rest).getLast (List.cons_ne_nil lo rest)) :=
        List.getLast_cons (List.cons_ne_nil lo rest)
      by_cases hc : lo.lux ≤ x ∧ x ≤ hi.lux
      · rw [if_pos hc] at hr
        have hr' : segInterp hi lo (Real.log x) = r := Option.some.inj hr
        obtain ⟨b1, b2⟩ := segInterp_bounds hi lo
          (hs.2.1 lo (List.mem_cons_of_mem hi (List.mem_cons_self lo rest)))
          hll
          (hs.2.2.1 lo (List.mem_cons_of_mem hi (List.mem_cons_self lo rest)))
          (hs.2.2.1 hi (List.mem_cons_self hi _)) hee x hc.1 hc.2
        constructor
        · rw [← hr']; exact b1
        · rw [← hr', hgl]
          exact le_trans b2 (sorted_head_et_le_getLast lo rest
            (List.pairwise_cons.mp hs.2.2.2).2)
      · rw [if_neg hc] at hr
        obtain ⟨i1, i2⟩ := ih lo hs.tail r hr
        exact ⟨le_trans hee i1, by rw [hgl]; exact i2⟩

theorem interpLoop_some (x : ℝ) (tl : List Anchor) :
    ∀ (hi : Anchor), tl ≠ [] →
      List.Pairwise (fun a b => b.lux < a.lux) (hi :: tl) →
      ((hi :: tl).getLast (List.cons_ne_nil hi tl)).lux ≤ x → x ≤ hi.lux →
      ∃ r, interpLoop x (Real.log x) (hi :: tl) = some r := by
  induction tl with
  | nil => intro hi hne _ _ _; exact absurd rfl hne
  | cons lo rest ih =>
      intro hi _ hp hlast hhead
      have hgl : ((hi :: lo :: rest).getLast (List.cons_ne_nil hi _))
          = ((lo :: rest).getLast (List.cons_ne_nil lo rest)) :=
        List.getLast_cons (List.cons_ne_nil lo rest)
      by_cases hx : lo.lux ≤ x
      · exact ⟨segInterp hi lo (Real.log x), by
          simp only [interpLoop]; rw [if_pos ⟨hx, hhead⟩]⟩
      · push_neg at hx
        have hrest : rest ≠ [] := by
          rintro rfl
          rw [hgl] at hlast
          exact absurd hlast (not_le.mpr hx)
        obtain ⟨r, hr⟩ := ih lo hrest (List.pairwise_cons.mp hp).2
          (by rw [hgl] at hlast; exact hlast) (le_of_lt hx)
        exact ⟨r, by
          simp only [interpLoop]
          rw [if_neg (fun hc => absurd hc.1 (not_le.mpr hx))]
          exact hr⟩

theorem interpLoop_mono (x y : ℝ) (hxy : x ≤ y) (tl : List Anchor) :
    ∀ (hi : Anchor), SortedTable (hi :: tl) → ∀ rx ry,
      interpLoop x (Real.log x) (hi :: tl) = some rx →
      interpLoop y (Real.log y) (hi :: tl) = some ry → ry ≤ rx := by
  induction tl with
  | nil => intro hi _ rx ry hrx _; cases hrx
  | cons lo rest ih =>
      intro hi hs rx ry hrx hry
      simp only [interpLoop] at hrx hry
      have hll : lo.lux < hi.lux :=
        (List.pairwise_cons.mp hs.1).1 lo (List.mem_cons_self lo rest)
      have hee : hi.et_us ≤ lo.et_us :=
        (List.pairwise_cons.mp hs.2.2.2).1 lo (List.mem_cons_self lo rest)
      have hlopos : 0 < lo.lux :=
        hs.2.1 lo (List.mem_cons_of_mem hi (List.mem_cons_self lo rest))
      have hetlo : 0 < lo.et_us :=
        hs.2.2.1 lo (List.mem_cons_of_mem hi (List.mem_cons_self lo rest))
      have hethi : 0 < hi.et_us := hs.2.2.1 hi (List.mem_cons_self hi _)
      by_cases hcx : lo.lux ≤ x ∧ x ≤ hi.lux
      · rw [if_pos hcx] at hrx
        by_cases hcy : lo.lux ≤ y ∧ y ≤ hi.lux
        · rw [if_pos hcy] at hry
          rw [← Option.some.inj hrx, ← Option.some.inj hry]
          exact segInterp_antitone hi lo hlopos hll hethi hee x y
            hcx.1 hxy hcy.2
        · rw [if_neg hcy] at hry
          have hygt : hi.lux < y := by
            by_contra hy'
            push_neg at hy'
            exact hcy ⟨le_trans hcx.1 hxy, hy'⟩
          rw [interpLoop_none_of_lt y (Real.log y) (lo :: rest)
            (fun a ha => lt_trans ((List.pairwise_cons.mp hs.1).1 a ha) hygt)]
            at hry
          cases hry
      · rw [if_neg hcx] at hrx
        by_cases hcy : lo.lux ≤ y ∧ y ≤ hi.lux
        · rw [if_pos hcy] at hry
          obtain ⟨i1, _⟩ := interpLoop_bounds x rest lo hs.tail rx hrx
          obtain ⟨_, b2⟩ := segInterp_bounds hi lo hlopos hll hetlo hethi hee
            y hcy.1 hcy.2
          rw [← Option.some.inj hry]
          exact le_trans b2 i1
        · rw [if_neg hcy] at hry
          exact ih lo hs.tail rx ry hrx hry

theorem interpLoop_anchor (tl : List Anchor) :
    ∀ (hi : Anchor), SortedTable (hi :: tl) → ∀ a ∈ tl,
      interpLoop a.lux (Real.log a.lux) (hi :: tl) = some a.et_us := by
  induction tl with
  | nil => intro hi _ a ha; cases ha
  | cons lo rest ih =>
      intro hi hs a ha
      have hll : lo.lux < hi.lux :=
        (List.pairwise_cons.mp hs.1).1 lo (List.mem_cons_self lo rest)
      rcases List.mem_cons.mp ha with rfl | ha'
      · simp only [interpLoop]
        rw [if_pos ⟨le_refl a.lux, le_of_lt hll⟩,
          segInterp_at_lo hi a
            (hs.2.2.1 a (List.mem_cons_of_mem hi (List.mem_cons_self a rest)))]
      · have halux : a.lux < lo.lux :=
          (List.pairwise_cons.mp (List.pairwise_cons.mp hs.1).2).1 a ha'
        simp only [interpLoop]
        rw [if_neg (fun hc => absurd hc.1 (not_le.mpr halux))]
        exact ih lo hs.tail a ha'

theorem loglogCore_bounds (x : ℝ) (hd : Anchor) (tl : List Anchor)
    (hs : SortedTable (hd :: tl)) (r : ℝ)
    (hr : loglogCore x (hd :: tl) = some r) :
    hd.et_us ≤ r ∧ r ≤ ((hd :: tl).getLast (List.cons_ne_nil hd tl)).et_us := by
  have hhl := sorted_head_et_le_getLast hd tl hs.2.2.2
  simp only [loglogCore] at hr
  by_cases h1 : hd.lux ≤ x
  · rw [if_pos h1] at hr
    rw [← Option.some.inj hr]
    exact ⟨le_refl _, hhl⟩
  · rw [if_neg h1] at hr
    by_cases h2 : x ≤ ((hd :: tl).getLast (List.cons_ne_nil hd tl)).lux
    · rw [if_pos h2] at hr
      rw [← Option.some.inj hr]
      exact ⟨hhl, le_refl _⟩
    · rw [if_neg h2] at hr
      rcases hloop : interpLoop x (Real.log x) (hd :: tl) with _ | r'
      · rw [hloop] at hr
        rw [← Option.some.inj hr]
        exact ⟨hhl, le_refl _⟩
      · rw [hloop] at hr
        rw [← Option.some.inj hr]
        exact interpLoop_bounds x tl hd hs r' hloop

/-! ## Claim theorems -/

/-- Claim C1, counterexample: a lux-driven or forced preset switch runs
`apply_preset_to_config`, which replaces the on-disk record wholesale with
the preset file's data; on a concrete live record and preset differing in
every runtime-tunable field, the resulting record carries the preset file's
shutter, gain and AWB gains, not the pre-switch live values. -/
theorem C1_counterexample :
    LuxController.apply_preset_to_config (.valid presetNight) liveBefore
      = .ok (some presetNight) ∧
    presetNight.shutter ≠ liveBefore.shutter ∧
    presetNight.gain ≠ liveBefore.gain ∧
    presetNight.awb_gain_r ≠ liveBefore.awb_gain_r ∧
    presetNight.awb_gain_b ≠ liveBefore.awb_gain_b := by
  refine ⟨rfl, ?_, ?_, ?_, ?_⟩ <;> simp [presetNight, liveBefore]

/-- Claim C1, amended: a successful preset application writes exactly the
preset file's record to the config store; no field of the live record —
in particular none of the runtime-tunable fields shutter, gain,
awb_gain_r, awb_gain_b — is carried over. -/
theorem C1_amended_preset_overwrites (pdata live : ConfigRecord) :
    LuxController.apply_preset_to_config (.valid pdata) live
      = .ok (some pdata) := rfl

/-- Claim C2, counterexample: the preset switcher's write of the shared
config record performs only the atomic file replacement — it acquires no
lock and performs no fresh re-read — so it violates the locked
read-modify-write protocol the claim asserts for every controller. -/
theorem C2_counterexample : ¬ lockedFreshRMW presetSwitcherWriteEvents := by
  decide

/-- Claim C2, amended: the exposure daemon's normal-mode write, its
astro-mode write, and the AWB adjuster's write each acquire the exclusive
advisory lock, re-read the record fresh inside the lock, and atomically
replace the file before releasing; the preset switcher's write, however,
consists of the atomic replacement alone, with no lock and no fresh
re-read. -/
theorem C2_amended_write_protocols :
    lockedFreshRMW luxExposuredWriteEvents ∧
    lockedFreshRMW luxExposuredAstroWriteEvents ∧
    lockedFreshRMW awbAdjusterWriteEvents ∧
    presetSwitcherWriteEvents = [.writeConfigAtomic] := by
  refine ⟨?_, ?_, ?_, rfl⟩ <;> decide

/-- Claim C3, counterexample: `tl_restart` issues no status command at all
between its stop and start commands — it sleeps a fixed 400 ms instead —
so the claimed stop / poll-status-until-stopped / start discipline does not
hold of it. -/
theorem C3_counterexample : ¬ stopPollThenStart tlRestartActions := by
  decide

/-- Claim C3, amended: to restart the capture process the preset switcher
issues a stop command, sleeps a fixed 0.4 s (polling no status), then
issues a start command; it never issues the supervisor's single `restart`
verb.  (A bounded poll-until-exit does occur, but inside the supervisor's
own stop operation, not in the switcher.) -/
theorem C3_amended_restart_is_stop_sleep_start :
    tlRestartActions = [.stopCmd, .sleepMs 400, .startCmd] ∧
    SupAction.restartCmd ∉ tlRestartActions ∧
    SupAction.statusCmd ∉ tlRestartActions := by
  refine ⟨rfl, ?_, ?_⟩ <;> decide

/-- Claim C4, counterexample: the AWB adjuster's config reader raises on a
missing file instead of returning an empty record, and the preset
switcher's reader raises on an unreadable file. -/
theorem C4_counterexample :
    AwbAdjuster.load_json .missing = .error .fileNotFound ∧
    LuxController.load_json .unreadable = .error .osError := ⟨rfl, rfl⟩

/-- Claim C4, amended: only the exposure daemon's reader returns the empty
record on every failure state; the preset switcher's reader returns `None`
(not a record) for missing files and malformed JSON and propagates other
I/O errors such as an unreadable file; the AWB adjuster's config reader
propagates every failure to its caller. -/
theorem C4_amended_reader_behaviour :
    (LuxExposured.load_json .missing = emptyRecord ∧
     LuxExposured.load_json .unreadable = emptyRecord ∧
     LuxExposured.load_json .malformed = emptyRecord) ∧
    (LuxController.load_json .missing = .ok none ∧
     LuxController.load_json .malformed = .ok none ∧
     LuxController.load_json .unreadable = .error .osError) ∧
    (AwbAdjuster.load_json .missing = .error .fileNotFound ∧
     AwbAdjuster.load_json .malformed = .error .jsonDecode ∧
     AwbAdjuster.load_json .unreadable = .error .osError) :=
  ⟨⟨rfl, rfl, rfl⟩, ⟨rfl, rfl, rfl⟩, ⟨rfl, rfl, rfl⟩⟩

/-- Claim C5: a lux sequence whose every reading lies strictly between the
astro enter-threshold and the astro exit-threshold (so neither the
below-enter condition nor the above-exit condition is ever sustained, let
alone for its hold duration) never changes the astro state, whatever the
starting state and tick times. -/
theorem C5_astro_state_stable (p : AstroParams) (s : AstroState)
    (ticks : List (ℚ × ℚ))
    (h : ∀ t ∈ ticks, p.enterLux < t.1 ∧ t.1 < p.exitLux) :
    (astroRun p s ticks).active = s.active := by
  induction ticks generalizing s with
  | nil => rfl
  | cons t ts ih =>
      have ht := h t (List.mem_cons_self t ts)
      have hts : ∀ u ∈ ts, p.enterLux < u.1 ∧ u.1 < p.exitLux :=
        fun u hu => h u (List.mem_cons_of_mem t hu)
      unfold astroRun
      rw [List.foldl_cons]
      have := ih (astroStep p s t.1 t.2) hts
      unfold astroRun at this
      rw [this, astroStep_active_of_between p s t.1 t.2 ht.1 ht.2]

/-- Claim C5, witness: a concrete oscillating sequence strictly inside the
hysteresis band (enter 5, exit 10) leaves astro mode inactive. -/
theorem C5_astro_state_stable_witness :
    (∀ t ∈ [((7:ℚ), (0:ℚ)), (9, 10), (6, 20), (8, 30)],
        (5:ℚ) < t.1 ∧ t.1 < (10:ℚ)) ∧
    (astroRun ⟨5, 10, 60, 60⟩ ⟨false, none, none⟩
        [((7:ℚ), (0:ℚ)), (9, 10), (6, 20), (8, 30)]).active = false :=
  ⟨by decide,
   C5_astro_state_stable ⟨5, 10, 60, 60⟩ ⟨false, none, none⟩
     [((7:ℚ), (0:ℚ)), (9, 10), (6, 20), (8, 30)]
     (by decide)⟩

/-- Claim C6, counterexample: with live shutter 1001 µs, step fraction 0.1
and target 1 µs, the step-limited shutter is `int(clamp(1, 900.9, 1101.1))
= int(900.9) = 900`, and `|900 − 1001| = 101` exceeds `1001 × 0.1 =
100.1` — the truncation in `int(...)` breaks the claimed bound. -/
theorem C6_counterexample :
    stepLimitShutter 1001 (1/10) 1 = 900 ∧
    ¬ (|(900 : ℚ) - 1001| ≤ 1001 * (1/10)) := by
  constructor
  · unfold stepLimitShutter clamp pyInt
    norm_num
  · norm_num

/-- Claim C6, amended: on every normal-mode tick with positive live values
and nonnegative step fractions, the step-limited gain satisfies the claimed
bound exactly, and the step-limited shutter satisfies it up to the strictly
less than one unit lost to the `int(...)` truncation:
`|new_shutter − old| < old·pct + 1` and `|new_gain − old| ≤ old·pct`. -/
theorem C6_amended_step_limiter_bounds (shutter : ℤ) (pct_s : ℚ) (tgt_s : ℤ)
    (gain pct_g tgt_g : ℚ) (hs : 0 < (shutter : ℚ)) (hps : 0 ≤ pct_s)
    (hg : 0 < gain) (hpg : 0 ≤ pct_g) :
    |((stepLimitShutter shutter pct_s tgt_s : ℤ) : ℚ) - (shutter : ℚ)|
        < (shutter : ℚ) * pct_s + 1 ∧
    |stepLimitGain gain pct_g tgt_g - gain| ≤ gain * pct_g := by
  constructor
  · have h1 := pyInt_dist
      (clamp (tgt_s : ℚ) ((shutter : ℚ) * (1 - pct_s)) ((shutter : ℚ) * (1 + pct_s)))
    have h2 := clamp_dist (tgt_s : ℚ) (shutter : ℚ) pct_s hs hps
    have h3 := abs_sub_le
      ((pyInt (clamp (tgt_s : ℚ) ((shutter : ℚ) * (1 - pct_s))
          ((shutter : ℚ) * (1 + pct_s))) : ℚ))
      (clamp (tgt_s : ℚ) ((shutter : ℚ) * (1 - pct_s)) ((shutter : ℚ) * (1 + pct_s)))
      (shutter : ℚ)
    unfold stepLimitShutter
    linarith
  · exact clamp_dist tgt_g gain pct_g hg hpg

/-- Claim C6, amended, witness: concrete instantiation at live shutter
1000 µs, shutter step 0.1, target 5000 µs, live gain 2, gain step 0.25,
target gain 10. -/
theorem C6_amended_step_limiter_bounds_witness :
    (0 < ((1000 : ℤ) : ℚ) ∧ (0:ℚ) ≤ 1/10 ∧ (0:ℚ) < 2 ∧ (0:ℚ) ≤ 1/4) ∧
    (|((stepLimitShutter 1000 (1/10) 5000 : ℤ) : ℚ) - ((1000 : ℤ) : ℚ)|
        < ((1000 : ℤ) : ℚ) * (1/10) + 1 ∧
     |stepLimitGain 2 (1/4) 10 - 2| ≤ 2 * (1/4)) :=
  ⟨by refine ⟨?_, ?_, ?_, ?_⟩ <;> norm_num,
   C6_amended_step_limiter_bounds 1000 (1/10) 5000 2 (1/4) 10
     (by norm_num) (by norm_num) (by norm_num) (by norm_num)⟩

/-- Claim C8: for one colour channel, the computed target gain is the
current gain unchanged when the error `1 − ratio` lies within the deadband,
and otherwise equals
`clamp((1−α)·g + α·g·(1 + clamp(k_p·err, −step_max, step_max)), gmin, gmax)`. -/
theorem C8_compute_target_gain_spec
    (g ratio deadband k_p step_max alpha gmin gmax : ℚ) :
    compute_target_gain g ratio deadband k_p step_max alpha gmin gmax
      = if |1 - ratio| ≤ deadband then g
        else clamp ((1 - alpha) * g
            + alpha * (g * (1 + clamp (k_p * (1 - ratio)) (-step_max) step_max)))
          gmin gmax := rfl

/-- Membership in a two-element list. -/
theorem mem_two {a x y : Anchor} (h : a ∈ [x, y]) : a = x ∨ a = y := by
  rcases List.mem_cons.mp h with rfl | h2
  · exact Or.inl rfl
  · exact Or.inr (List.mem_singleton.mp h2)

/-- Pairwise for a two-element list. -/
theorem pairwise_two {R : Anchor → Anchor → Prop} (a b : Anchor) (h : R a b) :
    List.Pairwise R [a, b] := by
  refine List.pairwise_cons.mpr ⟨?_, ?_⟩
  · intro c hc
    rw [List.mem_singleton] at hc
    subst hc
    exact h
  · exact List.pairwise_cons.mpr
      ⟨fun c hc => absurd hc (List.not_mem_nil c), List.Pairwise.nil⟩

/-- Claim C7, amended: for a nonempty exposure table with strictly positive,
strictly lux-descending anchors, positive exposure times non-decreasing as
lux decreases, the interpolation is (i) monotonic non-increasing over all
positive lux inputs (the original claim's "all inputs" fails because of the
1e-6 substitution for non-positive lux, see the counterexample); (ii) it
passes exactly through every anchor — the rendering of continuity at the
anchor points: both adjacent piecewise formulas meet the anchor's et_us
there, so the pieces join without a jump; (iii) above the highest-lux
anchor it returns that anchor's et_us; (iv) at or below the lowest-lux
anchor (for positive lux) it returns that anchor's et_us. -/
theorem C7_amended_interp_properties (hd : Anchor) (tl : List Anchor)
    (hgt : GoodTable (hd :: tl)) :
    (∀ x y rx ry, 0 < x → x ≤ y →
        loglog_interp_exposure x (hd :: tl) = some rx →
        loglog_interp_exposure y (hd :: tl) = some ry → ry ≤ rx) ∧
    (∀ a ∈ hd :: tl, loglog_interp_exposure a.lux (hd :: tl) = some a.et_us) ∧
    (∀ x, hd.lux ≤ x → loglog_interp_exposure x (hd :: tl) = some hd.et_us) ∧
    (∀ x, 0 < x → x ≤ ((hd :: tl).getLast (List.cons_ne_nil hd tl)).lux →
        loglog_interp_exposure x (hd :: tl)
          = some (((hd :: tl).getLast (List.cons_ne_nil hd tl)).et_us)) := by
  obtain ⟨-, hs⟩ := hgt
  have hsort := sortDescLux_eq_self (hd :: tl) hs.1
  have hdpos : 0 < hd.lux := hs.2.1 hd (List.mem_cons_self hd tl)
  refine ⟨?_, ?_, ?_, ?_⟩
  · intro x y rx ry hx hxy hrx hry
    have hy : 0 < y := lt_of_lt_of_le hx hxy
    unfold loglog_interp_exposure at hrx hry
    rw [if_neg (not_le.mpr hx), hsort] at hrx
    rw [if_neg (not_le.mpr hy), hsort] at hry
    by_cases hy1 : hd.lux ≤ y
    · have hry' : ry = hd.et_us := by
        simp only [loglogCore] at hry
        rw [if_pos hy1] at hry
        exact (Option.some.inj hry).symm
      rw [hry']
      exact (loglogCore_bounds x hd tl hs rx hrx).1
    · have hx1 : ¬ hd.lux ≤ x := fun hcon => hy1 (le_trans hcon hxy)
      by_cases hy2 : y ≤ ((hd :: tl).getLast (List.cons_ne_nil hd tl)).lux
      · have hry' : ry = ((hd :: tl).getLast (List.cons_ne_nil hd tl)).et_us := by
          simp only [loglogCore] at hry
          rw [if_neg hy1, if_pos hy2] at hry
          exact (Option.some.inj hry).symm
        have hrx' : rx = ((hd :: tl).getLast (List.cons_ne_nil hd tl)).et_us := by
          simp only [loglogCore] at hrx
          rw [if_neg hx1, if_pos (le_trans hxy hy2)] at hrx
          exact (Option.some.inj hrx).symm
        rw [hry', hrx']
      · have hyla : ((hd :: tl).getLast (List.cons_ne_nil hd tl)).lux < y :=
          not_le.mp hy2
        have hyhd : y < hd.lux := not_le.mp hy1
        have htl_ne : tl ≠ [] := by
          rintro rfl
          exact absurd hyla (not_lt.mpr (le_of_lt hyhd))
        obtain ⟨ry', hry'⟩ := interpLoop_some y tl hd htl_ne hs.1
          (le_of_lt hyla) (le_of_lt hyhd)
        have hryval : ry = ry' := by
          simp only [loglogCore] at hry
          rw [if_neg hy1, if_neg hy2, hry'] at hry
          exact (Option.some.inj hry).symm
        by_cases hx2 : x ≤ ((hd :: tl).getLast (List.cons_ne_nil hd tl)).lux
        · have hrxval : rx = ((hd :: tl).getLast (List.cons_ne_nil hd tl)).et_us := by
            simp only [loglogCore] at hrx
            rw [if_neg hx1, if_pos hx2] at hrx
            exact (Option.some.inj hrx).symm
          rw [hryval, hrxval]
          exact (interpLoop_bounds y tl hd hs ry' hry').2
        · obtain ⟨rx', hrx'⟩ := interpLoop_some x tl hd htl_ne hs.1
            (le_of_lt (not_le.mp hx2)) (le_of_lt (lt_of_le_of_lt hxy hyhd))
          have hrxval : rx = rx' := by
            simp only [loglogCore] at hrx
            rw [if_neg hx1, if_neg hx2, hrx'] at hrx
            exact (Option.some.inj hrx).symm
          rw [hryval, hrxval]
          exact interpLoop_mono x y hxy tl hd hs rx' ry' hrx' hry'
  · intro a ha
    have hapos : 0 < a.lux := hs.2.1 a ha
    unfold loglog_interp_exposure
    rw [if_neg (not_le.mpr hapos), hsort]
    simp only [loglogCore]
    rcases List.mem_cons.mp ha with rfl | ha'
    · rw [if_pos (le_refl a.lux)]
    · have halt : a.lux < hd.lux := (List.pairwise_cons.mp hs.1).1 a ha'
      rw [if_neg (not_le.mpr halt)]
      rcases sorted_getLast_cases (hd :: tl) (List.cons_ne_nil hd tl) hs.1 a ha
        with heq | hlt
      · rw [if_pos (le_of_eq (congrArg Anchor.lux heq))]
        exact (congrArg (fun b => some b.et_us) heq).symm
      · rw [if_neg (not_le.mpr hlt), interpLoop_anchor tl hd hs a ha']
  · intro x hx3
    have hx : 0 < x := lt_of_lt_of_le hdpos hx3
    unfold loglog_interp_exposure
    rw [if_neg (not_le.mpr hx), hsort]
    simp only [loglogCore]
    rw [if_pos hx3]
  · intro x hx hxla
    unfold loglog_interp_exposure
    rw [if_neg (not_le.mpr hx), hsort]
    simp only [loglogCore]
    by_cases hxh : hd.lux ≤ x
    · rcases sorted_getLast_cases (hd :: tl) (List.cons_ne_nil hd tl) hs.1 hd
        (List.mem_cons_self hd tl) with heq | hlt
      · rw [if_pos hxh]
        exact congrArg (fun b => some b.et_us) heq
      · exact absurd (le_trans hxh hxla) (not_le.mpr hlt)
    · rw [if_neg hxh, if_pos hxla]

/-- Claim C7, amended, witness: on the concrete table with anchors
(lux 2, et 4) and (lux 1, et 8), the high clamp applies at lux 3. -/
theorem C7_amended_interp_properties_witness :
    GoodTable [⟨2, 4⟩, ⟨1, 8⟩] ∧
    loglog_interp_exposure 3 [⟨2, 4⟩, ⟨1, 8⟩] = some (4 : ℝ) := by
  have hgood : GoodTable [(⟨2, 4⟩ : Anchor), ⟨1, 8⟩] := by
    refine ⟨List.cons_ne_nil _ _, pairwise_two _ _ (by norm_num), ?_, ?_,
      pairwise_two _ _ (by norm_num)⟩
    · intro a ha
      rcases mem_two ha with rfl | rfl <;> norm_num
    · intro a ha
      rcases mem_two ha with rfl | rfl <;> norm_num
  exact ⟨hgood,
    (C7_amended_interp_properties ⟨2, 4⟩ [⟨1, 8⟩] hgood).2.2.1 3 (by norm_num)⟩

/-- Claim C7, counterexample: on the well-formed table with anchors
(lux 1, et 1) and (lux 1e-8, et 100), the function is not monotonic
non-increasing over all inputs: the non-positive input −1 is substituted by
1e-6 before interpolation, so f(−1) = 100^(3/4) < 100^(7/8) = f(1e-7)
although −1 ≤ 1e-7. -/
theorem C7_counterexample :
    GoodTable [⟨1, 1⟩, ⟨1/100000000, 100⟩] ∧
    (-1 : ℝ) ≤ 1e-7 ∧
    loglog_interp_exposure (-1) [⟨1, 1⟩, ⟨1/100000000, 100⟩]
      = some (Real.exp ((3/4) * Real.log 100)) ∧
    loglog_interp_exposure (1e-7) [⟨1, 1⟩, ⟨1/100000000, 100⟩]
      = some (Real.exp ((7/8) * Real.log 100)) ∧
    Real.exp ((3/4) * Real.log 100) < Real.exp ((7/8) * Real.log 100) := by
  have hL : (0:ℝ) < Real.log 10 := Real.log_pos (by norm_num)
  have hL0 : Real.log (10:ℝ) ≠ 0 := hL.ne'
  have h6 : Real.log ((1e-6 : ℝ)) = (-6 : ℝ) * Real.log 10 := by
    rw [show (1e-6 : ℝ) = (10:ℝ) ^ (-6 : ℤ) by norm_num, Real.log_zpow]
    norm_num
  have h8 : Real.log ((1:ℝ)/100000000) = (-8 : ℝ) * Real.log 10 := by
    rw [show ((1:ℝ)/100000000) = (10:ℝ) ^ (-8 : ℤ) by norm_num, Real.log_zpow]
    norm_num
  have h7 : Real.log ((1e-7 : ℝ)) = (-7 : ℝ) * Real.log 10 := by
    rw [show (1e-7 : ℝ) = (10:ℝ) ^ (-7 : ℤ) by norm_num, Real.log_zpow]
    norm_num
  have h100 : Real.log (100:ℝ) = 2 * Real.log 10 := by
    rw [show (100:ℝ) = (10:ℝ) ^ (2:ℕ) by norm_num, Real.log_pow]
    norm_num
  have hpair : List.Pairwise (fun a b => b.lux < a.lux)
      [(⟨1, 1⟩ : Anchor), ⟨1/100000000, 100⟩] :=
    pairwise_two _ _ (by norm_num)
  have hsort := sortDescLux_eq_self _ hpair
  have h100pos : (0:ℝ) < Real.log 100 := Real.log_pos (by norm_num)
  refine ⟨⟨List.cons_ne_nil _ _, hpair, ?_, ?_, pairwise_two _ _ (by norm_num)⟩,
    by norm_num, ?_, ?_, ?_⟩
  · intro a ha
    rcases mem_two ha with rfl | rfl <;> norm_num
  · intro a ha
    rcases mem_two ha with rfl | rfl <;> norm_num
  · unfold loglog_interp_exposure
    rw [if_pos (by norm_num : (-1:ℝ) ≤ 0), hsort]
    simp only [loglogCore]
    rw [if_neg (by norm_num : ¬ ((⟨1, 1⟩ : Anchor).lux ≤ (1e-6:ℝ)))]
    rw [if_neg (by
      show ¬ ((1e-6:ℝ) ≤ ((⟨1/100000000, 100⟩ : Anchor)).lux)
      norm_num)]
    rw [show interpLoop (1e-6) (Real.log (1e-6 : ℝ))
        [(⟨1, 1⟩ : Anchor), ⟨1/100000000, 100⟩]
        = some (segInterp ⟨1, 1⟩ ⟨1/100000000, 100⟩ (Real.log (1e-6:ℝ))) by
      simp only [interpLoop]
      rw [if_pos ⟨by norm_num, by norm_num⟩]]
    refine congrArg some ?_
    show Real.exp (Real.log (100:ℝ) +
        (Real.log (1e-6:ℝ) - Real.log ((1:ℝ)/100000000)) /
          (Real.log (1:ℝ) - Real.log ((1:ℝ)/100000000)) *
        (Real.log (1:ℝ) - Real.log (100:ℝ)))
      = Real.exp ((3/4) * Real.log 100)
    rw [Real.log_one, h6, h8, h100]
    refine congrArg Real.exp ?_
    field_simp
    ring
  · unfold loglog_interp_exposure
    rw [if_neg (by norm_num : ¬ ((1e-7:ℝ) ≤ 0)), hsort]
    simp only [loglogCore]
    rw [if_neg (by norm_num : ¬ ((⟨1, 1⟩ : Anchor).lux ≤ (1e-7:ℝ)))]
    rw [if_neg (by
      show ¬ ((1e-7:ℝ) ≤ ((⟨1/100000000, 100⟩ : Anchor)).lux)
      norm_num)]
    rw [show interpLoop (1e-7) (Real.log (1e-7 : ℝ))
        [(⟨1, 1⟩ : Anchor), ⟨1/100000000, 100⟩]
        = some (segInterp ⟨1, 1⟩ ⟨1/100000000, 100⟩ (Real.log (1e-7:ℝ))) by
      simp only [interpLoop]
      rw [if_pos ⟨by norm_num, by norm_num⟩]]
    refine congrArg some ?_
    show Real.exp (Real.log (100:ℝ) +
        (Real.log (1e-7:ℝ) - Real.log ((1:ℝ)/100000000)) /
          (Real.log (1:ℝ) - Real.log ((1:ℝ)/100000000)) *
        (Real.log (1:ℝ) - Real.log (100:ℝ)))
      = Real.exp ((7/8) * Real.log 100)
    rw [Real.log_one, h7, h8, h100]
    refine congrArg Real.exp ?_
    field_simp
    ring
  · exact Real.exp_lt_exp.mpr (by linarith)

/-- Claim C9, counterexample: at startup the EMA accumulator is seeded from
the live record as `max(1.0, shutter * max(gain, 1.0))`, which is always
positive, so the first normal-mode tick blends the raw interpolated value
against that prior instead of seeding with it: with live shutter 4000 and
gain 1, smoothing 0.7 and a first raw interpolation of 8000 µs (lux 3000
above the table's top anchor), the first-tick EMA is 5200 ≠ 8000. -/
theorem C9_counterexample :
    initEmaEt 4000 1 = 4000 ∧
    loglog_interp_exposure 3000 [⟨2000, 8000⟩, ⟨200, 40000⟩] = some (8000:ℝ) ∧
    emaUpdate (7/10) (initEmaEt 4000 1) 8000 = 5200 ∧
    (5200 : ℝ) ≠ 8000 := by
  have h1 : initEmaEt 4000 1 = (4000:ℝ) := by
    unfold initEmaEt
    rw [max_self, mul_one]
    exact max_eq_right (by norm_num)
  have hpair : List.Pairwise (fun a b => b.lux < a.lux)
      [(⟨2000, 8000⟩ : Anchor), ⟨200, 40000⟩] :=
    pairwise_two _ _ (by norm_num)
  refine ⟨h1, ?_, ?_, by norm_num⟩
  · unfold loglog_interp_exposure
    rw [if_neg (by norm_num : ¬ ((3000:ℝ) ≤ 0)), sortDescLux_eq_self _ hpair]
    simp only [loglogCore]
    rw [if_pos (by norm_num : (⟨2000, 8000⟩ : Anchor).lux ≤ (3000:ℝ))]
  · rw [h1]
    unfold emaUpdate
    rw [if_pos (by norm_num : (0:ℝ) < 4000)]
    norm_num

/-- Claim C9, amended: the EMA accumulator is initialized at startup to
`max(1, shutter·max(gain, 1))` from the live record; this prior is always
strictly positive, so the first tick (like every later one) blends the raw
interpolated value against it with the smoothing factor — the
seed-with-raw branch (`else et`) would fire only for a non-positive
accumulator, which the initialization rules out. -/
theorem C9_amended_first_tick_blends (s g a et : ℝ) :
    0 < initEmaEt s g ∧
    emaUpdate a (initEmaEt s g) et = a * initEmaEt s g + (1 - a) * et := by
  have hpos : 0 < initEmaEt s g := lt_of_lt_of_le one_pos (le_max_left _ _)
  refine ⟨hpos, ?_⟩
  unfold emaUpdate
  rw [if_pos hpos]

/-- Claim C10: for every lux ≤ 0 the interpolation substitutes the fixed
positive value 1e-6 before any logarithm is taken — the embedding stays
total where Python would otherwise raise `math.log` domain errors — and
returns exactly what interpolation returns at lux = 1e-6, for every
table. -/
theorem C10_nonpositive_lux_substitution (lux : ℝ) (table : List Anchor)
    (h : lux ≤ 0) :
    loglog_interp_exposure lux table = loglog_interp_exposure (1e-6) table := by
  unfold loglog_interp_exposure
  rw [if_pos h, if_neg (by norm_num : ¬ ((1e-6:ℝ) ≤ 0))]

/-- Claim C10, witness: concrete instantiation at lux −5 on a two-anchor
table. -/
theorem C10_nonpositive_lux_substitution_witness :
    ((-5 : ℝ) ≤ 0) ∧
    loglog_interp_exposure (-5) [⟨2, 4⟩, ⟨1, 8⟩]
      = loglog_interp_exposure (1e-6) [⟨2, 4⟩, ⟨1, 8⟩] :=
  ⟨by norm_num,
   C10_nonpositive_lux_substitution (-5) [⟨2, 4⟩, ⟨1, 8⟩] (by norm_num)⟩
